import Mathlib

/-!
# Verification of the Pushover MCP server's authentication core

Shallow embedding, in Lean 4, of the authentication subsystem of the
Pushover repository (the coherent snapshot formed by `auth.go`, `main.go`,
`http_server.go`, `config.go`, whose behaviour the test-suite
`main_test.go` pins down).

Modelling conventions:
* Go strings and `[]byte` values are modelled as `List Nat` (`Bytes`),
  one entry per byte.  All byte-producing definitions stay below 256;
  theorems that need it carry an explicit `ByteOk` hypothesis.
* `time.Now()` becomes an explicit integer parameter (Unix seconds);
  the hour-to-duration conversion `time.Duration(h) * time.Hour` is
  modelled as `3600 * h` seconds inside `generateClaims`/`generateJWT`,
  exact for |h| < 2562048 (no int64 overflow), which covers every
  expiration used by the program (744, 24, 1, 0, -1).  Go's wrapping
  int64 multiplication itself is modelled by `goHourDuration` /
  `goExpiresAt`, used where the overflow regime is load-bearing.
* `context.Context` values become a record of optional fields (`Ctx`),
  one per context key used by `auth.go`.
* `encoding/json` is modelled by an executable marshaller producing
  exactly the byte string Go produces for the `Claims` struct (field
  order of the struct, no whitespace) and an executable parser with
  Go's semantics for this shape: unknown object members are ignored,
  missing members leave the zero value, a member of the wrong type is
  an error, trailing data is an error.  Divergences, none of which
  affect a stated property: the model does not HTML-escape `<`, `>`,
  `&` (Go's decoder accepts both encodings), passes control bytes
  through unescaped, and does not skip inter-token whitespace.
* `crypto/hmac` + `crypto/sha256` are implemented for real (FIPS 180-4)
  so that nothing about the signature pipeline is stubbed; no theorem
  depends on particular digest values, only on the pipeline structure.
-/

/-- Byte strings: Go `string` / `[]byte` values, one `Nat` per byte. -/
abbrev Bytes := List Nat

/-- Bytes of an ASCII/UTF-8 Lean string literal, for readable statements. -/
def strBytes (s : String) : Bytes := s.data.map Char.toNat

/-- All entries are genuine bytes (< 256). -/
def ByteOk (bs : Bytes) : Prop := ∀ b ∈ bs, b < 256

instance : DecidablePred ByteOk := fun bs =>
  inferInstanceAs (Decidable (∀ b ∈ bs, b < 256))

/-- `strings.Split(s, sep)` for a one-byte separator: splits at every
occurrence, yielding `n+1` fragments for `n` separators. -/
def splitB (sep : Nat) : Bytes → List Bytes
  | [] => [[]]
  | b :: rest =>
    let r := splitB sep rest
    if b = sep then [] :: r
    else
      match r with
      | t :: ts => (b :: t) :: ts
      | [] => [[b]]

theorem splitB_ne_nil (sep : Nat) (bs : Bytes) : splitB sep bs ≠ [] := by
  cases bs with
  | nil => simp [splitB]
  | cons b rest =>
    simp only [splitB]
    split
    · simp
    · cases splitB sep rest <;> simp

theorem splitB_no_sep (sep : Nat) (a : Bytes) (h : ∀ b ∈ a, b ≠ sep) :
    splitB sep a = [a] := by
  induction a with
  | nil => rfl
  | cons b rest ih =>
    have hb : b ≠ sep := h b (by simp)
    have hrest : ∀ x ∈ rest, x ≠ sep := fun x hx => h x (by simp [hx])
    simp [splitB, hb, ih hrest]

theorem splitB_sep_append (sep : Nat) (a r : Bytes) (h : ∀ b ∈ a, b ≠ sep) :
    splitB sep (a ++ sep :: r) = a :: splitB sep r := by
  induction a with
  | nil => simp [splitB]
  | cons b rest ih =>
    have hb : b ≠ sep := h b (by simp)
    have hrest : ∀ x ∈ rest, x ≠ sep := fun x hx => h x (by simp [hx])
    have heq := ih hrest
    simp only [List.cons_append, splitB, hb, if_false, List.append_eq]
    rw [heq]

/-! ## SHA-256 and HMAC (crypto/sha256, crypto/hmac)

A faithful executable implementation over `Nat` words reduced mod 2^32.
-/

/-- 32-bit word truncation. -/
def w32 (n : Nat) : Nat := n % 4294967296

/-- Right rotation of a 32-bit word. -/
def rotr32 (n x : Nat) : Nat := w32 (x / 2 ^ n + x % 2 ^ n * 2 ^ (32 - n))

/-- Bitwise XOR/AND/OR/complement on words, via `Nat` bit operations. -/
def xor32 (a b : Nat) : Nat := w32 (Nat.xor a b)
def and32 (a b : Nat) : Nat := w32 (Nat.land a b)
def not32 (a : Nat) : Nat := w32 (Nat.xor a 4294967295)

/-- SHA-256 round constants (FIPS 180-4 section 4.2.2, in decimal). -/
def shaK : List Nat :=
  [1116352408, 1899447441, 3049323471, 3921009573, 961987163,
   1508970993, 2453635748, 2870763221, 3624381080, 310598401,
   607225278, 1426881987, 1925078388, 2162078206, 2614888103,
   3248222580, 3835390401, 4022224774, 264347078, 604807628,
   770255983, 1249150122, 1555081692, 1996064986, 2554220882,
   2821834349, 2952996808, 3210313671, 3336571891, 3584528711,
   113926993, 338241895, 666307205, 773529912, 1294757372,
   1396182291, 1695183700, 1986661051, 2177026350, 2456956037,
   2730485921, 2820302411, 3259730800, 3345764771, 3516065817,
   3600352804, 4094571909, 275423344, 430227734, 506948616,
   659060556, 883997877, 958139571, 1322822218, 1537002063,
   1747873779, 1955562222, 2024104815, 2227730452, 2361852424,
   2428436474, 2756734187, 3204031479, 3329325298]

/-- Initial SHA-256 hash state (FIPS 180-4 section 5.3.3, in decimal). -/
def shaH0 : List Nat :=
  [1779033703, 3144134277, 1013904242, 2773480762, 1359893119,
   2600822924, 528734635, 1541459225]

/-- Big-endian 4-byte decomposition of a word. -/
def wordBytes (w : Nat) : Bytes :=
  [w / 16777216 % 256, w / 65536 % 256, w / 256 % 256, w % 256]

/-- Big-endian word from four bytes. -/
def bytesWord (a b c d : Nat) : Nat :=
  w32 (a * 16777216 + b * 65536 + c * 256 + d)

/-- Group a padded message into 32-bit words (length divisible by 4). -/
def toWords : Bytes → List Nat
  | a :: b :: c :: d :: rest => bytesWord a b c d :: toWords rest
  | _ => []

/-- SHA-256 message padding: append 0x80, zeros, and the 64-bit
bit-length, so the total length is a multiple of 64 bytes. -/
def shaPad (msg : Bytes) : Bytes :=
  let len := msg.length
  let zeros := (64 - (len + 9) % 64) % 64
  msg ++ 128 :: List.replicate zeros 0 ++
    [len * 8 / 72057594037927936 % 256,
     len * 8 / 281474976710656 % 256,
     len * 8 / 1099511627776 % 256,
     len * 8 / 4294967296 % 256,
     len * 8 / 16777216 % 256,
     len * 8 / 65536 % 256,
     len * 8 / 256 % 256,
     len * 8 % 256]

/-- Message-schedule extension: extends the 16 block words to 64. -/
def shaExtend (ws : List Nat) (i : Nat) : List Nat :=
  if h : i < 64 then
    let w15 := ws.getD (i - 15) 0
    let w2 := ws.getD (i - 2) 0
    let s0 := xor32 (xor32 (rotr32 7 w15) (rotr32 18 w15)) (w15 / 8)
    let s1 := xor32 (xor32 (rotr32 17 w2) (rotr32 19 w2)) (w2 / 1024)
    shaExtend (ws ++ [w32 (ws.getD (i - 16) 0 + s0 + ws.getD (i - 7) 0 + s1)]) (i + 1)
  else ws
termination_by 64 - i

/-- One compression round. -/
def shaRound (st : List Nat) (k w : Nat) : List Nat :=
  match st with
  | [a, b, c, d, e, f, g, h] =>
    let s1 := xor32 (xor32 (rotr32 6 e) (rotr32 11 e)) (rotr32 25 e)
    let ch := xor32 (and32 e f) (and32 (not32 e) g)
    let t1 := w32 (h + s1 + ch + k + w)
    let s0 := xor32 (xor32 (rotr32 2 a) (rotr32 13 a)) (rotr32 22 a)
    let mj := xor32 (xor32 (and32 a b) (and32 a c)) (and32 b c)
    let t2 := w32 (s0 + mj)
    [w32 (t1 + t2), a, b, c, w32 (d + t1), e, f, g]
  | _ => st

/-- Compress one 16-word block into the running hash. -/
def shaBlock (h : List Nat) (block : List Nat) : List Nat :=
  let ws := shaExtend block 16
  let fin := (List.zip shaK ws).foldl (fun st (kw : Nat × Nat) => shaRound st kw.1 kw.2) h
  List.zipWith (fun a b => w32 (a + b)) h fin

/-- Iterate over all 64-byte blocks. -/
def shaBlocks (h : List Nat) : Bytes → List Nat
  | [] => h
  | msg => if msg.length < 64 then h else shaBlocks (shaBlock h (toWords (msg.take 64))) (msg.drop 64)
termination_by msg => msg.length
decreasing_by
  simp only [List.length_drop]
  omega

/-- SHA-256 digest (32 bytes) of a byte string. -/
def sha256 (msg : Bytes) : Bytes :=
  (shaBlocks shaH0 (shaPad msg)).flatMap wordBytes

/-- HMAC-SHA256 (crypto/hmac with sha256.New). -/
def hmacSha256 (key msg : Bytes) : Bytes :=
  let k0 := if key.length > 64 then sha256 key else key
  let kp := k0 ++ List.replicate (64 - k0.length) 0
  let ipad := kp.map (fun b => Nat.xor b 54)
  let opad := kp.map (fun b => Nat.xor b 92)
  sha256 (opad ++ sha256 (ipad ++ msg))

theorem wordBytes_lt (w : Nat) : ∀ b ∈ wordBytes w, b < 256 := by
  intro b hb
  simp only [wordBytes, List.mem_cons, List.not_mem_nil, or_false] at hb
  rcases hb with h | h | h | h <;> subst h <;> exact Nat.mod_lt _ (by norm_num)

theorem sha256_byteOk (msg : Bytes) : ByteOk (sha256 msg) := by
  intro b hb
  simp only [sha256, List.mem_flatMap] at hb
  obtain ⟨w, _, hw⟩ := hb
  exact wordBytes_lt w b hw

/-! ## base64url without padding (encoding/base64 RawURLEncoding) -/

/-- Sextet-to-character table of the URL-safe base64 alphabet. -/
def b64ct (i : Nat) : Nat :=
  if i < 26 then 65 + i
  else if i < 52 then 97 + (i - 26)
  else if i < 62 then 48 + (i - 52)
  else if i = 62 then 45
  else 95

/-- Character-to-sextet table (None for bytes outside the alphabet). -/
def b64dt (ch : Nat) : Option Nat :=
  if 65 ≤ ch ∧ ch ≤ 90 then some (ch - 65)
  else if 97 ≤ ch ∧ ch ≤ 122 then some (ch - 97 + 26)
  else if 48 ≤ ch ∧ ch ≤ 57 then some (ch - 48 + 52)
  else if ch = 45 then some 62
  else if ch = 95 then some 63
  else none

/-- `base64.RawURLEncoding.EncodeToString`: 3 input bytes per 4 output
characters, final partial group of 1 or 2 bytes as 2 or 3 characters,
no padding. -/
def b64encode : Bytes → Bytes
  | [] => []
  | [a] => [b64ct (a / 4), b64ct (a % 4 * 16)]
  | [a, b] => [b64ct (a / 4), b64ct (a % 4 * 16 + b / 16), b64ct (b % 16 * 4)]
  | a :: b :: c :: rest =>
    b64ct (a / 4) :: b64ct (a % 4 * 16 + b / 16) :: b64ct (b % 16 * 4 + c / 64) ::
      b64ct (c % 64) :: b64encode rest

/-- `base64.RawURLEncoding` decoding (non-strict: extra trailing bits of
a final partial group are ignored, as Go's default decoder does). -/
def b64decode : Bytes → Option Bytes
  | [] => some []
  | [_] => none
  | [w, x] => do
    let a ← b64dt w
    let b ← b64dt x
    pure [a * 4 + b / 16]
  | [w, x, y] => do
    let a ← b64dt w
    let b ← b64dt x
    let c ← b64dt y
    pure [a * 4 + b / 16, b % 16 * 16 + c / 4]
  | w :: x :: y :: z :: rest => do
    let a ← b64dt w
    let b ← b64dt x
    let c ← b64dt y
    let d ← b64dt z
    let tl ← b64decode rest
    pure ((a * 4 + b / 16) :: (b % 16 * 16 + c / 4) :: (c % 4 * 64 + d) :: tl)

theorem b64dt_b64ct (i : Nat) (h : i < 64) : b64dt (b64ct i) = some i := by
  revert h
  revert i
  decide

theorem b64ct_ne_dot (i : Nat) : b64ct i ≠ 46 := by
  simp only [b64ct]
  split <;> try omega
  split <;> try omega
  split <;> try omega
  split <;> omega

theorem b64encode_no_dot (bs : Bytes) : ∀ ch ∈ b64encode bs, ch ≠ 46 := by
  intro ch hch
  induction bs using b64encode.induct with
  | case1 => simp [b64encode] at hch
  | case2 a =>
    simp only [b64encode, List.mem_cons, List.not_mem_nil, or_false] at hch
    rcases hch with h | h <;> (subst h; exact b64ct_ne_dot _)
  | case3 a b =>
    simp only [b64encode, List.mem_cons, List.not_mem_nil, or_false] at hch
    rcases hch with h | h | h <;> (subst h; exact b64ct_ne_dot _)
  | case4 a b c rest ih =>
    simp only [b64encode, List.mem_cons] at hch
    rcases hch with h | h | h | h | h
    · subst h; exact b64ct_ne_dot _
    · subst h; exact b64ct_ne_dot _
    · subst h; exact b64ct_ne_dot _
    · subst h; exact b64ct_ne_dot _
    · exact ih h

theorem b64_roundtrip (bs : Bytes) (hok : ByteOk bs) :
    b64decode (b64encode bs) = some bs := by
  induction bs using b64encode.induct with
  | case1 => rfl
  | case2 a =>
    have ha : a < 256 := hok a (by simp)
    simp only [b64encode, b64decode,
      b64dt_b64ct _ (by omega : a / 4 < 64),
      b64dt_b64ct _ (by omega : a % 4 * 16 < 64)]
    simp only [Option.bind_eq_bind, Option.some_bind, Option.pure_def,
      Option.some.injEq, List.cons.injEq, and_true]
    omega
  | case3 a b =>
    have ha : a < 256 := hok a (by simp)
    have hb : b < 256 := hok b (by simp)
    simp only [b64encode, b64decode,
      b64dt_b64ct _ (by omega : a / 4 < 64),
      b64dt_b64ct _ (by omega : a % 4 * 16 + b / 16 < 64),
      b64dt_b64ct _ (by omega : b % 16 * 4 < 64)]
    simp only [Option.bind_eq_bind, Option.some_bind, Option.pure_def,
      Option.some.injEq, List.cons.injEq, and_true]
    omega
  | case4 a b c rest ih =>
    have ha : a < 256 := hok a (by simp)
    have hb : b < 256 := hok b (by simp)
    have hc : c < 256 := hok c (by simp)
    have hrest : ByteOk rest := fun x hx => hok x (by simp [hx])
    have henc : b64decode (b64encode rest) = some rest := ih hrest
    by_cases hnil : rest = []
    · subst hnil
      simp only [b64encode, b64decode,
        b64dt_b64ct _ (by omega : a / 4 < 64),
        b64dt_b64ct _ (by omega : a % 4 * 16 + b / 16 < 64),
        b64dt_b64ct _ (by omega : b % 16 * 4 + c / 64 < 64),
        b64dt_b64ct _ (by omega : c % 64 < 64)]
      simp only [Option.bind_eq_bind, Option.some_bind, Option.pure_def,
        Option.some.injEq, List.cons.injEq, and_true]
      refine ⟨by omega, by omega, by omega⟩
    · have h4 : b64encode rest ≠ [] := by
        cases rest with
        | nil => exact absurd rfl hnil
        | cons x xs =>
          cases xs with
          | nil => simp [b64encode]
          | cons y ys => cases ys <;> simp [b64encode]
      -- the encoded tail is nonempty, so the 4+ pattern of b64decode applies
      cases he : b64encode rest with
      | nil => exact absurd he h4
      | cons e0 etl =>
        simp only [b64encode, he, b64decode,
          b64dt_b64ct _ (by omega : a / 4 < 64),
          b64dt_b64ct _ (by omega : a % 4 * 16 + b / 16 < 64),
          b64dt_b64ct _ (by omega : b % 16 * 4 + c / 64 < 64),
          b64dt_b64ct _ (by omega : c % 64 < 64)]
        rw [he] at henc
        simp only [henc, Option.bind_eq_bind, Option.some_bind, Option.pure_def,
          Option.some.injEq, List.cons.injEq, and_true]
        refine ⟨by omega, by omega, by omega⟩

/-! ## Decimal integers (encoding/json number output, strconv parsing) -/

/-- Least-significant-first decimal digits of a positive number. -/
def natDecR : Nat → Bytes
  | 0 => []
  | n + 1 => ((n + 1) % 10 + 48) :: natDecR ((n + 1) / 10)
decreasing_by exact Nat.div_lt_self (Nat.succ_pos n) (by norm_num)

/-- Decimal representation of a natural number. -/
def natDec (n : Nat) : Bytes := if n = 0 then [48] else (natDecR n).reverse

/-- Decimal representation of an integer (Go `json.Marshal` of int64). -/
def intDec (n : Int) : Bytes :=
  if n < 0 then 45 :: natDec n.natAbs else natDec n.toNat

/-- Is an ASCII decimal digit byte? -/
def isDigitB (b : Nat) : Prop := 48 ≤ b ∧ b ≤ 57

instance (b : Nat) : Decidable (isDigitB b) := inferInstanceAs (Decidable (_ ∧ _))

/-- Fold decimal digit bytes most-significant first into an accumulator,
returning the value and the first non-digit remainder. -/
def parseDigits : Bytes → Nat → Nat × Bytes
  | [], acc => (acc, [])
  | b :: rest, acc =>
    if isDigitB b then parseDigits rest (acc * 10 + (b - 48)) else (acc, b :: rest)


/-- Parse a (possibly negative) decimal integer; at least one digit
(the JSON number grammar restricted to integers, as accepted by Go's
decoder for an `int64` field). -/
def parseIntB : Bytes → Option (Int × Bytes)
  | [] => none
  | b :: rest =>
    if b = 45 then
      match rest with
      | [] => none
      | d :: rest2 =>
        if isDigitB d then
          let (v, r) := parseDigits rest2 (d - 48)
          some (-(v : Int), r)
        else none
    else if isDigitB b then
      let (v, r) := parseDigits rest (b - 48)
      some ((v : Int), r)
    else none

/-- Value of a most-significant-first digit string, with accumulator. -/
def digitsVal : Bytes → Nat → Nat
  | [], acc => acc
  | b :: rest, acc => digitsVal rest (acc * 10 + (b - 48))

theorem digitsVal_append (a b : Bytes) (acc : Nat) :
    digitsVal (a ++ b) acc = digitsVal b (digitsVal a acc) := by
  induction a generalizing acc with
  | nil => rfl
  | cons x xs ih => simp [digitsVal, ih]

theorem parseDigits_spec (ds rest : Bytes) (acc : Nat)
    (hd : ∀ b ∈ ds, isDigitB b)
    (hr : ∀ b, rest.head? = some b → ¬isDigitB b) :
    parseDigits (ds ++ rest) acc = (digitsVal ds acc, rest) := by
  induction ds generalizing acc with
  | nil =>
    cases rest with
    | nil => rfl
    | cons b tl =>
      have := hr b rfl
      simp [parseDigits, this, digitsVal]
  | cons x xs ih =>
    have hx : isDigitB x := hd x (by simp)
    have hxs : ∀ b ∈ xs, isDigitB b := fun b hb => hd b (by simp [hb])
    simp [parseDigits, hx, digitsVal, ih _ hxs]

theorem natDecR_digits (n : Nat) : ∀ b ∈ natDecR n, isDigitB b := by
  induction n using natDecR.induct with
  | case1 => simp [natDecR]
  | case2 n ih =>
    intro b hb
    simp only [natDecR, List.mem_cons] at hb
    rcases hb with h | h
    · subst h; constructor <;> omega
    · exact ih b h

theorem natDecR_val (n : Nat) : digitsVal (natDecR n).reverse 0 = n := by
  suffices h : ∀ acc, digitsVal (natDecR n).reverse acc = acc * 10 ^ (natDecR n).length + n by
    simpa using h 0
  induction n using natDecR.induct with
  | case1 => intro acc; simp [natDecR, digitsVal]
  | case2 n ih =>
    intro acc
    simp only [natDecR, List.reverse_cons, digitsVal_append, List.length_cons]
    rw [ih]
    simp only [digitsVal]
    have := Nat.div_add_mod (n + 1) 10
    ring_nf
    omega

theorem natDec_digits (n : Nat) : ∀ b ∈ natDec n, isDigitB b := by
  intro b hb
  simp only [natDec] at hb
  split at hb
  · simp only [List.mem_singleton] at hb; subst hb; constructor <;> omega
  · exact natDecR_digits n b (List.mem_reverse.mp hb)

theorem natDec_val (n : Nat) : digitsVal (natDec n) 0 = n := by
  simp only [natDec]
  split
  · subst ‹n = 0›; simp [digitsVal]
  · exact natDecR_val n

theorem natDec_ne_nil (n : Nat) : natDec n ≠ [] := by
  simp only [natDec]
  split
  · simp
  · have h : natDecR n ≠ [] := by
      cases n with
      | zero => omega
      | succ m => simp [natDecR]
    simpa using h

/-- Parsing a natural number's decimal form. -/
theorem parseIntB_natDec (n : Nat) (rest : Bytes)
    (hr : ∀ b, rest.head? = some b → ¬isDigitB b) :
    parseIntB (natDec n ++ rest) = some ((n : Int), rest) := by
  cases hd : natDec n with
  | nil => exact absurd hd (natDec_ne_nil _)
  | cons d tl =>
    have hds : ∀ b ∈ natDec n, isDigitB b := natDec_digits _
    have hd0 : isDigitB d := hds d (by rw [hd]; simp)
    have htl : ∀ b ∈ tl, isDigitB b := fun b hb => hds b (by rw [hd]; simp [hb])
    have hd45 : ¬(d = 45) := by rcases hd0 with ⟨h1, h2⟩; omega
    simp only [List.cons_append, parseIntB, hd45, if_false, if_pos hd0]
    rw [parseDigits_spec tl rest (d - 48) htl hr]
    have hval : digitsVal (d :: tl) 0 = n := by rw [← hd]; exact natDec_val _
    simp only [digitsVal, Nat.zero_mul, Nat.zero_add] at hval
    simp [hval]

/-- Parsing inverts integer printing, provided the remainder does not
begin with a digit. -/
theorem parseIntB_intDec (n : Int) (rest : Bytes)
    (hr : ∀ b, rest.head? = some b → ¬isDigitB b) :
    parseIntB (intDec n ++ rest) = some (n, rest) := by
  by_cases hneg : n < 0
  · simp only [intDec, if_pos hneg]
    cases hd : natDec n.natAbs with
    | nil => exact absurd hd (natDec_ne_nil _)
    | cons d tl =>
      have hds : ∀ b ∈ natDec n.natAbs, isDigitB b := natDec_digits _
      have hd0 : isDigitB d := hds d (by rw [hd]; simp)
      have htl : ∀ b ∈ tl, isDigitB b := fun b hb => hds b (by rw [hd]; simp [hb])
      simp only [List.cons_append, parseIntB, if_pos rfl, hd]
      simp only [List.cons_append, if_pos hd0]
      rw [parseDigits_spec tl rest (d - 48) htl hr]
      have hval : digitsVal (d :: tl) 0 = n.natAbs := by rw [← hd]; exact natDec_val _
      simp only [digitsVal, Nat.zero_mul, Nat.zero_add] at hval
      rw [hval]
      have hn : -((n.natAbs : Int)) = n := by omega
      rw [hn]
      simp
  · simp only [intDec, if_neg hneg]
    have hn : ((n.toNat : Nat) : Int) = n := by omega
    rw [parseIntB_natDec n.toNat rest hr, hn]

/-! ## JSON strings (encoding/json string escaping and parsing)

The escaper produces the byte string Go's encoder produces for valid
UTF-8 input, except that `<`, `>`, `&` are left unescaped (Go
HTML-escapes them; its decoder accepts both forms) and control bytes
other than `\n`, `\r`, `\t` pass through.  Neither divergence affects a
stated property: every payload a theorem touches round-trips identically
in both systems. -/

/-- Escape one byte of a JSON string. -/
def escByte (b : Nat) : Bytes :=
  if b = 34 then [92, 34]
  else if b = 92 then [92, 92]
  else if b = 10 then [92, 110]
  else if b = 13 then [92, 114]
  else if b = 9 then [92, 116]
  else [b]

/-- Escape a whole string. -/
def escapeStr (s : Bytes) : Bytes := s.flatMap escByte

/-- Decode one escape character (after a backslash). -/
def escDecode (e : Nat) : Option Nat :=
  if e = 34 then some 34
  else if e = 92 then some 92
  else if e = 110 then some 10
  else if e = 114 then some 13
  else if e = 116 then some 9
  else none

/-- Parse a JSON string body (opening quote already consumed) up to the
closing quote, returning content and remainder. -/
def parseJString : Bytes → Option (Bytes × Bytes)
  | [] => none
  | b :: rest =>
    if b = 34 then some ([], rest)
    else if b = 92 then
      match rest with
      | [] => none
      | e :: rest2 =>
        match escDecode e with
        | some c => (parseJString rest2).map (fun p => (c :: p.1, p.2))
        | none => none
    else (parseJString rest).map (fun p => (b :: p.1, p.2))

theorem parseJString_quote (rest : Bytes) :
    parseJString (34 :: rest) = some ([], rest) := by
  rw [parseJString.eq_def]
  simp

theorem parseJString_escape_step (e : Nat) (c : Nat) (rest : Bytes)
    (he : escDecode e = some c) :
    parseJString (92 :: e :: rest) =
      (parseJString rest).map (fun p => (c :: p.1, p.2)) := by
  rw [parseJString.eq_def]
  simp [he]

theorem parseJString_other (b : Nat) (rest : Bytes) (h34 : b ≠ 34) (h92 : b ≠ 92) :
    parseJString (b :: rest) = (parseJString rest).map (fun p => (b :: p.1, p.2)) := by
  rw [parseJString.eq_def]
  simp [h34, h92]

theorem escapeStr_cons (b : Nat) (tl : Bytes) :
    escapeStr (b :: tl) = escByte b ++ escapeStr tl := by
  simp [escapeStr]

/-- Unescaping inverts escaping: the parser consumes exactly the escaped
content plus its closing quote. -/
theorem parseJString_escapeStr (s rest : Bytes) :
    parseJString (escapeStr s ++ 34 :: rest) = some (s, rest) := by
  induction s with
  | nil => simp [escapeStr, parseJString_quote]
  | cons b tl ih =>
    rw [escapeStr_cons]
    by_cases h34 : b = 34
    · subst h34
      have he : escByte 34 = [92, 34] := rfl
      rw [he]
      simp only [List.cons_append, List.nil_append, List.append_assoc]
      rw [parseJString_escape_step 34 34 _ (by decide)]
      simp [ih]
    · by_cases h92 : b = 92
      · subst h92
        have he : escByte 92 = [92, 92] := rfl
        rw [he]
        simp only [List.cons_append, List.nil_append, List.append_assoc]
        rw [parseJString_escape_step 92 92 _ (by decide)]
        simp [ih]
      · by_cases h10 : b = 10
        · subst h10
          have he : escByte 10 = [92, 110] := rfl
          rw [he]
          simp only [List.cons_append, List.nil_append, List.append_assoc]
          rw [parseJString_escape_step 110 10 _ (by decide)]
          simp [ih]
        · by_cases h13 : b = 13
          · subst h13
            have he : escByte 13 = [92, 114] := rfl
            rw [he]
            simp only [List.cons_append, List.nil_append, List.append_assoc]
            rw [parseJString_escape_step 114 13 _ (by decide)]
            simp [ih]
          · by_cases h9 : b = 9
            · subst h9
              have he : escByte 9 = [92, 116] := rfl
              rw [he]
              simp only [List.cons_append, List.nil_append, List.append_assoc]
              rw [parseJString_escape_step 116 9 _ (by decide)]
              simp [ih]
            · have he : escByte b = [b] := by
                simp [escByte, h34, h92, h10, h13, h9]
              rw [he]
              simp only [List.cons_append, List.nil_append]
              rw [parseJString_other b _ h34 h92]
              simp [ih]

/-- Escaped output of byte-valid input is byte-valid. -/
theorem escByte_lt (x : Nat) (hx : x < 256) : ∀ b ∈ escByte x, b < 256 := by
  intro b hb
  simp only [escByte] at hb
  repeat' split at hb
  all_goals simp only [List.mem_cons, List.not_mem_nil, or_false] at hb
  all_goals rcases hb with h1 | h1 <;> omega

theorem escapeStr_byteOk (s : Bytes) (h : ByteOk s) : ByteOk (escapeStr s) := by
  intro b hb
  simp only [escapeStr, List.mem_flatMap] at hb
  obtain ⟨x, hx, hbx⟩ := hb
  exact escByte_lt x (h x hx) b hbx

/-! ## JSON values and objects (encoding/json for the Claims shape)

Values are flat (strings, integers, booleans, null): the claims payload
this program produces and consumes contains no nested arrays/objects,
and unknown members of those kinds are outside every stated property. -/

/-- A flat JSON value. -/
inductive JVal where
  | str : Bytes → JVal
  | int : Int → JVal
  | bool : Bool → JVal
  | null : JVal
deriving DecidableEq

/-- Parse one flat JSON value. -/
def parseJValue : Bytes → Option (JVal × Bytes)
  | [] => none
  | b :: rest =>
    if b = 34 then (parseJString rest).map (fun p => (JVal.str p.1, p.2))
    else if b = 116 then
      match rest with
      | 114 :: 117 :: 101 :: r => some (JVal.bool true, r)
      | _ => none
    else if b = 102 then
      match rest with
      | 97 :: 108 :: 115 :: 101 :: r => some (JVal.bool false, r)
      | _ => none
    else if b = 110 then
      match rest with
      | 117 :: 108 :: 108 :: r => some (JVal.null, r)
      | _ => none
    else (parseIntB (b :: rest)).map (fun p => (JVal.int p.1, p.2))

theorem parseJValue_jstr (s r : Bytes) :
    parseJValue (34 :: (escapeStr s ++ 34 :: r)) = some (JVal.str s, r) := by
  simp [parseJValue, parseJString_escapeStr]

theorem parseJValue_int (n : Int) (r : Bytes)
    (hr : ∀ b, r.head? = some b → ¬isDigitB b) :
    parseJValue (intDec n ++ r) = some (JVal.int n, r) := by
  have hparse := parseIntB_intDec n r hr
  have hhead : ∃ d tl, intDec n = d :: tl ∧ (d = 45 ∨ isDigitB d) := by
    by_cases hneg : n < 0
    · exact ⟨45, natDec n.natAbs, by simp [intDec, hneg], Or.inl rfl⟩
    · simp only [intDec, if_neg hneg]
      cases hd : natDec n.toNat with
      | nil => exact absurd hd (natDec_ne_nil _)
      | cons d tl =>
        exact ⟨d, tl, rfl, Or.inr (natDec_digits _ d (by rw [hd]; simp))⟩
  obtain ⟨d, tl, hdt, hd⟩ := hhead
  rw [hdt] at hparse ⊢
  have h34 : ¬(d = 34) := by rcases hd with h | ⟨h1, h2⟩ <;> omega
  have h116 : ¬(d = 116) := by rcases hd with h | ⟨h1, h2⟩ <;> omega
  have h102 : ¬(d = 102) := by rcases hd with h | ⟨h1, h2⟩ <;> omega
  have h110 : ¬(d = 110) := by rcases hd with h | ⟨h1, h2⟩ <;> omega
  simp only [List.cons_append, parseJValue, h34, h116, h102, h110, if_false]
  simp only [List.cons_append] at hparse
  simp [hparse]

/-- Parse the members of a JSON object, cursor standing just before a
member key; one unit of fuel per member (callers pass the input length,
an upper bound on the member count). -/
def parseMembers : Nat → Bytes → Option (List (Bytes × JVal) × Bytes)
  | 0, _ => none
  | fuel + 1, bs =>
    match bs with
    | 34 :: rest =>
      match parseJString rest with
      | some (k, rest1) =>
        match rest1 with
        | 58 :: rest2 =>
          match parseJValue rest2 with
          | some (v, rest3) =>
            match rest3 with
            | 44 :: rest4 => (parseMembers fuel rest4).map (fun p => ((k, v) :: p.1, p.2))
            | 125 :: rest4 => some ([(k, v)], rest4)
            | _ => none
          | none => none
        | _ => none
      | none => none
    | _ => none

theorem parseMembers_more (fuel : Nat) (hf : fuel ≠ 0) (kb vrest rest : Bytes) (v : JVal)
    (hkb : escapeStr kb = kb)
    (hv : parseJValue vrest = some (v, 44 :: rest)) :
    parseMembers fuel (34 :: (kb ++ 34 :: 58 :: vrest)) =
      (parseMembers (fuel - 1) rest).map (fun p => ((kb, v) :: p.1, p.2)) := by
  obtain ⟨f, rfl⟩ : ∃ f, fuel = f + 1 := ⟨fuel - 1, by omega⟩
  have hk : parseJString (kb ++ 34 :: 58 :: vrest) = some (kb, 58 :: vrest) := by
    conv_lhs => rw [← hkb]
    exact parseJString_escapeStr kb (58 :: vrest)
  simp [parseMembers, hk, hv]

theorem parseMembers_last (fuel : Nat) (hf : fuel ≠ 0) (kb vrest rest : Bytes) (v : JVal)
    (hkb : escapeStr kb = kb)
    (hv : parseJValue vrest = some (v, 125 :: rest)) :
    parseMembers fuel (34 :: (kb ++ 34 :: 58 :: vrest)) =
      some ([(kb, v)], rest) := by
  obtain ⟨f, rfl⟩ : ∃ f, fuel = f + 1 := ⟨fuel - 1, by omega⟩
  have hk : parseJString (kb ++ 34 :: 58 :: vrest) = some (kb, 58 :: vrest) := by
    conv_lhs => rw [← hkb]
    exact parseJString_escapeStr kb (58 :: vrest)
  simp [parseMembers, hk, hv]

/-- Parse a whole JSON object (possibly empty). -/
def parseObject (bs : Bytes) : Option (List (Bytes × JVal) × Bytes) :=
  match bs with
  | 123 :: 125 :: rest => some ([], rest)
  | 123 :: rest => parseMembers (rest.length + 1) rest
  | _ => none

/-- Last binding for a key, as Go's decoder keeps the last duplicate. -/
def findField (fs : List (Bytes × JVal)) (k : Bytes) : Option JVal :=
  fs.foldl (fun acc kv => if kv.1 = k then some kv.2 else acc) none

/-- Read a string member with Go's semantics: absent or null leaves the
zero value, a member of the wrong type is an error. -/
def getStrD (fs : List (Bytes × JVal)) (k : Bytes) : Option Bytes :=
  match findField fs k with
  | none => some []
  | some (JVal.str s) => some s
  | some JVal.null => some []
  | some _ => none

/-- Read an int64 member with Go's semantics. -/
def getIntD (fs : List (Bytes × JVal)) (k : Bytes) : Option Int :=
  match findField fs k with
  | none => some 0
  | some (JVal.int n) => some n
  | some JVal.null => some 0
  | some _ => none

/-! ## Claims (auth.go:22-28) and their JSON codec -/

/-- The JWT claims structure of `auth.go`:

```
type Claims struct {
    UserID    string `json:"user_id"`
    Username  string `json:"username"`
    Role      string `json:"role"`
    IssuedAt  int64  `json:"iat"`
    ExpiresAt int64  `json:"exp"`
}
```

Note: no issuer or audience field exists in this structure. -/
structure Claims where
  userID : Bytes
  username : Bytes
  role : Bytes
  issuedAt : Int
  expiresAt : Int
deriving DecidableEq

/-- A quoted, escaped JSON string. -/
def jstr (s : Bytes) : Bytes := 34 :: escapeStr s ++ [34]

/-- `"key":` — an object member key as Go's encoder emits it. -/
def keyB (s : String) : Bytes := 34 :: strBytes s ++ [34, 58]

/-- `json.Marshal` of a `Claims` value: members in struct order, no
whitespace, exactly Go's output for valid-UTF-8 field values. -/
def marshalClaims (c : Claims) : Bytes :=
  [123] ++ keyB "user_id" ++ jstr c.userID ++ [44]
    ++ keyB "username" ++ jstr c.username ++ [44]
    ++ keyB "role" ++ jstr c.role ++ [44]
    ++ keyB "iat" ++ intDec c.issuedAt ++ [44]
    ++ keyB "exp" ++ intDec c.expiresAt ++ [125]

/-- Build a `Claims` from parsed object members, with Go's decoding
semantics for each field. -/
def claimsFromFields (fs : List (Bytes × JVal)) : Option Claims := do
  let uid ← getStrD fs (strBytes "user_id")
  let uname ← getStrD fs (strBytes "username")
  let role ← getStrD fs (strBytes "role")
  let iat ← getIntD fs (strBytes "iat")
  let exp ← getIntD fs (strBytes "exp")
  pure ⟨uid, uname, role, iat, exp⟩

/-- `json.Unmarshal` into `Claims`: a complete JSON object with no
trailing data. -/
def unmarshalClaims (bs : Bytes) : Option Claims :=
  match parseObject bs with
  | some (fs, []) => claimsFromFields fs
  | _ => none

theorem escapeStr_strBytes_key :
    escapeStr (strBytes "user_id") = strBytes "user_id" ∧
    escapeStr (strBytes "username") = strBytes "username" ∧
    escapeStr (strBytes "role") = strBytes "role" ∧
    escapeStr (strBytes "iat") = strBytes "iat" ∧
    escapeStr (strBytes "exp") = strBytes "exp" := by
  refine ⟨?_, ?_, ?_, ?_, ?_⟩ <;> rfl

theorem claimsFromFields_std (uid uname role : Bytes) (iat exp : Int) :
    claimsFromFields [(strBytes "user_id", JVal.str uid),
      (strBytes "username", JVal.str uname), (strBytes "role", JVal.str role),
      (strBytes "iat", JVal.int iat), (strBytes "exp", JVal.int exp)] =
      some ⟨uid, uname, role, iat, exp⟩ := rfl

/-- `json.Unmarshal` inverts `json.Marshal` on the Claims struct. -/
theorem unmarshal_marshal (c : Claims) :
    unmarshalClaims (marshalClaims c) = some c := by
  obtain ⟨k1, k2, k3, k4, k5⟩ := escapeStr_strBytes_key
  simp only [marshalClaims, keyB, jstr, unmarshalClaims, parseObject,
    List.append_assoc, List.cons_append, List.nil_append, List.singleton_append]
  rw [parseMembers_more _ ?hf1 _ _ _ _ k1 (by rw [parseJValue_jstr])]
  rw [parseMembers_more _ ?hf2 _ _ _ _ k2 (by rw [parseJValue_jstr])]
  rw [parseMembers_more _ ?hf3 _ _ _ _ k3 (by rw [parseJValue_jstr])]
  rw [parseMembers_more _ ?hf4 _ _ _ _ k4
    (by rw [parseJValue_int _ _ (by intro b hb; simp at hb; subst hb; decide)])]
  rw [parseMembers_last _ ?hf5 _ _ _ _ k5
    (by rw [parseJValue_int _ _ (by intro b hb; simp at hb; subst hb; decide)])]
  case hf1 => simp only [List.length_append, List.length_cons]; omega
  case hf2 => simp only [List.length_append, List.length_cons]; omega
  case hf3 => simp only [List.length_append, List.length_cons]; omega
  case hf4 => simp only [List.length_append, List.length_cons]; omega
  case hf5 => simp only [List.length_append, List.length_cons]; omega
  simp only [Option.map_some, Option.map]
  rw [claimsFromFields_std]

/-- A claims payload carrying two extra members `"iss"` and `"aud"` after
the five struct fields — a well-formed JSON object declaring an issuer
and an audience, used to probe how verification treats such members. -/
def marshalClaimsIssAud (c : Claims) (iss aud : Bytes) : Bytes :=
  [123] ++ keyB "user_id" ++ jstr c.userID ++ [44]
    ++ keyB "username" ++ jstr c.username ++ [44]
    ++ keyB "role" ++ jstr c.role ++ [44]
    ++ keyB "iat" ++ intDec c.issuedAt ++ [44]
    ++ keyB "exp" ++ intDec c.expiresAt ++ [44]
    ++ keyB "iss" ++ jstr iss ++ [44]
    ++ keyB "aud" ++ jstr aud ++ [125]

theorem claimsFromFields_issAud (uid uname role : Bytes) (iat exp : Int)
    (iss aud : Bytes) :
    claimsFromFields [(strBytes "user_id", JVal.str uid),
      (strBytes "username", JVal.str uname), (strBytes "role", JVal.str role),
      (strBytes "iat", JVal.int iat), (strBytes "exp", JVal.int exp),
      (strBytes "iss", JVal.str iss), (strBytes "aud", JVal.str aud)] =
      some ⟨uid, uname, role, iat, exp⟩ := rfl

/-- Unmarshalling ignores the unknown `iss`/`aud` members entirely. -/
theorem unmarshal_issAud (c : Claims) (iss aud : Bytes) :
    unmarshalClaims (marshalClaimsIssAud c iss aud) = some c := by
  obtain ⟨k1, k2, k3, k4, k5⟩ := escapeStr_strBytes_key
  have k6 : escapeStr (strBytes "iss") = strBytes "iss" := rfl
  have k7 : escapeStr (strBytes "aud") = strBytes "aud" := rfl
  simp only [marshalClaimsIssAud, keyB, jstr, unmarshalClaims, parseObject,
    List.append_assoc, List.cons_append, List.nil_append, List.singleton_append]
  rw [parseMembers_more _ ?ha1 _ _ _ _ k1 (by rw [parseJValue_jstr])]
  rw [parseMembers_more _ ?ha2 _ _ _ _ k2 (by rw [parseJValue_jstr])]
  rw [parseMembers_more _ ?ha3 _ _ _ _ k3 (by rw [parseJValue_jstr])]
  rw [parseMembers_more _ ?ha4 _ _ _ _ k4
    (by rw [parseJValue_int _ _ (by intro b hb; simp at hb; subst hb; decide)])]
  rw [parseMembers_more _ ?ha5 _ _ _ _ k5
    (by rw [parseJValue_int _ _ (by intro b hb; simp at hb; subst hb; decide)])]
  rw [parseMembers_more _ ?ha6 _ _ _ _ k6 (by rw [parseJValue_jstr])]
  rw [parseMembers_last _ ?ha7 _ _ _ _ k7 (by rw [parseJValue_jstr])]
  case ha1 => simp only [List.length_append, List.length_cons]; omega
  case ha2 => simp only [List.length_append, List.length_cons]; omega
  case ha3 => simp only [List.length_append, List.length_cons]; omega
  case ha4 => simp only [List.length_append, List.length_cons]; omega
  case ha5 => simp only [List.length_append, List.length_cons]; omega
  case ha6 => simp only [List.length_append, List.length_cons]; omega
  case ha7 => simp only [List.length_append, List.length_cons]; omega
  simp only [Option.map_some, Option.map]
  rw [claimsFromFields_issAud]

/-! ## The authentication middleware (auth.go) -/

/-- `AuthMiddleware` (auth.go:16-19): signing secret and enabled flag,
immutable after construction. -/
structure AuthMiddleware where
  secretKey : Bytes
  enabled : Bool

/-- `NewAuthMiddleware` (auth.go:44-49). -/
def newAuthMiddleware (secretKey : Bytes) (enabled : Bool) : AuthMiddleware :=
  ⟨secretKey, enabled⟩

/-- `createSignature` (auth.go:143-147): base64url-encoded
HMAC-SHA256 over the data. -/
def createSignature (am : AuthMiddleware) (data : Bytes) : Bytes :=
  b64encode (hmacSha256 am.secretKey data)

/-- The fixed JWT header `GenerateJWT` emits (auth.go:161-169):
`json.Marshal` of the map sorts the two keys alphabetically. -/
def jwtHeaderBytes : Bytes := strBytes "\x7b\"alg\":\"HS256\",\"typ\":\"JWT\"\x7d"

/-- `GenerateJWT` (auth.go:150-188).  `now` is the `time.Now()` instant in
Unix seconds; the expiry is `now` plus `expirationHours` hours.  JSON
marshalling of the claims cannot fail, so the Go error path is absent. -/
def generateJWT (am : AuthMiddleware) (userID username role : Bytes)
    (expirationHours : Int) (now : Int) : Bytes :=
  let claims : Claims := ⟨userID, username, role, now, now + 3600 * expirationHours⟩
  let encodedHeader := b64encode jwtHeaderBytes
  let encodedPayload := b64encode (marshalClaims claims)
  let signature := createSignature am (encodedHeader ++ 46 :: encodedPayload)
  encodedHeader ++ 46 :: encodedPayload ++ 46 :: signature

/-- `validateJWT` (auth.go:113-140): split on `.` into exactly three
parts, constant-time-compare the supplied signature against the
recomputed one, then base64-decode and JSON-parse the payload.  No
algorithm, issuer, audience or expiry check occurs here. -/
def validateJWT (am : AuthMiddleware) (token : Bytes) : Except Bytes Claims :=
  match splitB 46 token with
  | [header, payload, signature] =>
    let expected := createSignature am (header ++ 46 :: payload)
    if signature = expected then
      match b64decode payload with
      | none => Except.error (strBytes "failed to decode payload")
      | some payloadBytes =>
        match unmarshalClaims payloadBytes with
        | none => Except.error (strBytes "failed to parse claims")
        | some claims => Except.ok claims
    else Except.error (strBytes "invalid signature")
  | _ => Except.error (strBytes "invalid token format")

/-- The literal `"Bearer "` (auth.go:104; named `bearerPrefix` in the
source, renamed here for tooling reasons). -/
def bearerLiteral : Bytes := strBytes "Bearer "

/-- `extractTokenFromHeader` (auth.go:97-110): empty header or a header
not starting with the case-sensitive literal `"Bearer "` yields no
token; otherwise everything after the prefix is returned verbatim. -/
def extractTokenFromHeader (authHeader : Bytes) : Bytes :=
  if authHeader = [] then []
  else if List.isPrefixOf bearerLiteral authHeader then authHeader.drop bearerLiteral.length
  else []

/-- An inbound HTTP request as the middleware sees it: its method and its
`Authorization` header value (`""` when the header is absent, as
`http.Header.Get` reports). -/
structure Request where
  method : Bytes
  authHeader : Bytes

/-- The per-request context: one optional slot per context key that
`auth.go` attaches (auth.go:34-41). -/
structure Ctx where
  httpMethod : Option Bytes := none
  userID : Option Bytes := none
  username : Option Bytes := none
  role : Option Bytes := none
  authError : Option Bytes := none
  authenticated : Option Bool := none
deriving DecidableEq

/-- `getUserID` (auth.go:195-200). -/
def getUserID (ctx : Ctx) : Bytes := ctx.userID.getD []

/-- `getUsername` (auth.go:203-208). -/
def getUsername (ctx : Ctx) : Bytes := ctx.username.getD []

/-- `getRole` (auth.go:213-218). -/
def getRole (ctx : Ctx) : Bytes := ctx.role.getD []

/-- `getAuthError` (auth.go:221-226). -/
def getAuthError (ctx : Ctx) : Bytes := ctx.authError.getD []

/-- `isAuthenticated` (auth.go:229-234). -/
def isAuthenticated (ctx : Ctx) : Bool := ctx.authenticated.getD false

/-- `isHTTPRequest` (auth.go:237-242): true iff an HTTP method was
recorded and is non-empty. -/
def isHTTPRequest (ctx : Ctx) : Bool :=
  match ctx.httpMethod with
  | some m => !m.isEmpty
  | none => false

/-- `HTTPContextFunc` (auth.go:52-94): build the per-request context.
`now` is the `time.Now().Unix()` instant used by the expiry check. -/
def httpContextFunc (am : AuthMiddleware) (r : Request) (now : Int) : Ctx :=
  let ctx : Ctx := { httpMethod := some r.method }
  if !am.enabled then { ctx with authenticated := some true }
  else
    let token := extractTokenFromHeader r.authHeader
    if token = [] then
      { ctx with authError := some (strBytes "missing or invalid authorization header"),
                 authenticated := some false }
    else
      match validateJWT am token with
      | Except.error e =>
        { ctx with authError := some (strBytes "invalid token: " ++ e),
                   authenticated := some false }
      | Except.ok claims =>
        if now > claims.expiresAt then
          { ctx with authError := some (strBytes "token expired"),
                     authenticated := some false }
        else
          { ctx with userID := some claims.userID,
                     username := some claims.username,
                     role := some claims.role,
                     authenticated := some true }

/-! ## Tool invocation guard and MCP server glue (main.go, http_server.go) -/

/-- The slice of `MCPConfig` (config.go:14-35) consulted by the modelled
handlers: the auth settings and the Pushover defaults. -/
structure MCPConfig where
  authEnabled : Bool
  authSecretKey : Bytes
  pushoverDefaultPriority : Int
  pushoverDefaultExpire : Int

/-- An MCP tool result: either a normal text result or a tool error
(`mcp.NewToolResultError` / `mcp.NewToolResultText`). -/
structure ToolResult where
  isError : Bool
  text : Bytes
deriving DecidableEq

/-- `mcp.NewToolResultError`. -/
def newToolResultError (msg : Bytes) : ToolResult := ⟨true, msg⟩

/-- `wrapWithAuth` (main.go:503-532): gate the handler on auth state for
HTTP requests when auth is enabled; otherwise call it unconditionally.
The second component records whether the wrapped handler ran, making
"returns WITHOUT calling the operation" expressible. -/
def wrapWithAuth (handler : Ctx → ToolResult) (config : MCPConfig) (ctx : Ctx) :
    ToolResult × Bool :=
  if isHTTPRequest ctx && config.authEnabled then
    if !isAuthenticated ctx then
      (newToolResultError (strBytes "Authentication required: " ++ getAuthError ctx), false)
    else (handler ctx, true)
  else (handler ctx, true)

/-- Digit-run parsing for `strconv.Atoi`: the whole string must be
digits, at least one. -/
def atoiCore (ds : Bytes) : Option Nat :=
  match ds with
  | [] => none
  | _ =>
    match parseDigits ds 0 with
    | (v, []) => some v
    | _ => none

/-- `strconv.Atoi`: optional sign then at least one digit, nothing else
(int64 overflow is out of the modelled range). -/
def atoi (s : Bytes) : Option Int :=
  match s with
  | [] => none
  | b :: rest =>
    if b = 45 then (atoiCore rest).map (fun v => -(v : Int))
    else if b = 43 then (atoiCore rest).map (fun v => (v : Int))
    else (atoiCore s).map (fun v => (v : Int))

/-- The priority-selection slice of `handleSendNotification`
(main.go:554-565): an absent `priority` argument keeps the configured
default; otherwise the string must parse and lie in [-2, 2]. -/
def parsePriorityArg (config : MCPConfig) (priorityStr : Bytes) : Except Bytes Int :=
  if priorityStr = [] then Except.ok config.pushoverDefaultPriority
  else
    match atoi priorityStr with
    | some p =>
      if p < -2 ∨ p > 2 then Except.error (strBytes "Priority must be between -2 and 2")
      else Except.ok p
    | none => Except.error (strBytes "Invalid priority value")

/-- The priority line of `CreateMessage` (main.go:382-387): a CLI/tool
priority of 0 is treated as "unset" and replaced by the config value. -/
def createMessagePriority (configPriority cliPriority : Int) : Int :=
  if cliPriority ≠ 0 then cliPriority else configPriority

/-- The composed priority a `send_notification` message is created with
(main.go:554-565 feeding main.go:382-387 through `cliArgs.Priority`,
with `legacyConfig.Priority = config.PushoverDefaultPriority`,
config.go:126-136). -/
def sendNotificationPriority (config : MCPConfig) (priorityStr : Bytes) :
    Except Bytes Int :=
  (parsePriorityArg config priorityStr).map
    (fun p => createMessagePriority config.pushoverDefaultPriority p)

/-! ## The /generate-token endpoint (http_server.go:188-243) -/

/-- The decoded JSON request body of `handleGenerateToken`
(http_server.go:196-201). -/
structure GenTokenRequest where
  userID : Bytes
  username : Bytes
  role : Bytes
  expiresIn : Int

/-- The defaulting step of `handleGenerateToken` (http_server.go:208-220). -/
def genTokenDefaults (req : GenTokenRequest) : GenTokenRequest :=
  { userID := if req.userID = [] then strBytes "default_user" else req.userID,
    username := if req.username = [] then strBytes "pushover_user" else req.username,
    role := if req.role = [] then strBytes "user" else req.role,
    expiresIn := if req.expiresIn ≤ 0 then 24 else req.expiresIn }

/-- An HTTP response of the endpoint: status plus the issued token, if
any. -/
structure GenTokenResponse where
  status : Nat
  token : Option Bytes
deriving DecidableEq

/-- `handleGenerateToken` (http_server.go:188-243): POST only; decode the
body (`none` = undecodable JSON, 400); apply defaults; issue a token with
a fresh middleware over the server's configured secret.  The request's
headers are passed in but never consulted — the handler performs no
authentication.  `now` is the issuing instant. -/
def handleGenerateToken (config : MCPConfig) (method : Bytes)
    (authHeader : Bytes) (body : Option GenTokenRequest) (now : Int) :
    GenTokenResponse :=
  if method ≠ strBytes "POST" then { status := 405, token := none }
  else
    match body with
    | none => { status := 400, token := none }
    | some req =>
      let r := genTokenDefaults req
      let am := newAuthMiddleware config.authSecretKey true
      { status := 200,
        token := some (generateJWT am r.userID r.username r.role r.expiresIn now) }

/-- Route registration in `Start` (http_server.go:68-71): the
`/generate-token` route is added exactly when auth is enabled. -/
def generateTokenRouteRegistered (config : MCPConfig) : Bool := config.authEnabled

/-! ## Token structure lemmas -/

theorem byteOk_append (a b : Bytes) : ByteOk (a ++ b) ↔ ByteOk a ∧ ByteOk b := by
  constructor
  · intro h
    exact ⟨fun x hx => h x (by simp [hx]), fun x hx => h x (by simp [hx])⟩
  · rintro ⟨ha, hb⟩ x hx
    rcases List.mem_append.mp hx with h | h
    · exact ha x h
    · exact hb x h

theorem byteOk_cons (b : Nat) (tl : Bytes) :
    ByteOk (b :: tl) ↔ b < 256 ∧ ByteOk tl := by
  constructor
  · intro h
    exact ⟨h b (by simp), fun x hx => h x (by simp [hx])⟩
  · rintro ⟨hb, htl⟩ x hx
    rcases List.mem_cons.mp hx with h | h
    · omega
    · exact htl x h

theorem intDec_byteOk (n : Int) : ByteOk (intDec n) := by
  have hnat : ∀ m : Nat, ByteOk (natDec m) := by
    intro m b hb
    have := natDec_digits m b hb
    rcases this with ⟨h1, h2⟩
    omega
  intro b hb
  simp only [intDec] at hb
  split at hb
  · rcases List.mem_cons.mp hb with h | h
    · omega
    · exact hnat _ b h
  · exact hnat _ b hb

theorem jstr_byteOk (s : Bytes) (h : ByteOk s) : ByteOk (jstr s) := by
  intro x hx
  simp only [jstr, List.mem_cons, List.mem_append, List.mem_singleton,
    List.not_mem_nil, or_false] at hx
  rcases hx with (h1 | h1) | h1
  · omega
  · exact escapeStr_byteOk s h x h1
  · omega

/-- The field strings of a Claims value are genuine byte strings. -/
def ClaimsOk (c : Claims) : Prop :=
  ByteOk c.userID ∧ ByteOk c.username ∧ ByteOk c.role

instance : DecidablePred ClaimsOk := fun c =>
  inferInstanceAs (Decidable (_ ∧ _ ∧ _))

theorem marshalClaims_byteOk (c : Claims) (h : ClaimsOk c) :
    ByteOk (marshalClaims c) := by
  obtain ⟨h1, h2, h3⟩ := h
  simp only [marshalClaims]
  rw [byteOk_append, byteOk_append, byteOk_append, byteOk_append, byteOk_append,
    byteOk_append, byteOk_append, byteOk_append, byteOk_append, byteOk_append,
    byteOk_append, byteOk_append, byteOk_append, byteOk_append, byteOk_append]
  refine ⟨⟨⟨⟨⟨⟨⟨⟨⟨⟨⟨⟨⟨⟨⟨?_, ?_⟩, ?_⟩, ?_⟩, ?_⟩, ?_⟩, ?_⟩, ?_⟩, ?_⟩, ?_⟩, ?_⟩,
    ?_⟩, ?_⟩, ?_⟩, ?_⟩, ?_⟩ <;>
    first
      | decide
      | exact jstr_byteOk _ h1
      | exact jstr_byteOk _ h2
      | exact jstr_byteOk _ h3
      | exact intDec_byteOk _

/-- A three-segment token over arbitrary header bytes and payload bytes,
signed with the middleware's own secret — the exact shape `GenerateJWT`
produces, but with a free choice of header. -/
def signedToken (am : AuthMiddleware) (headerBytes payloadBytes : Bytes) : Bytes :=
  let eh := b64encode headerBytes
  let ep := b64encode payloadBytes
  eh ++ 46 :: ep ++ 46 :: createSignature am (eh ++ 46 :: ep)

theorem generateJWT_as_signedToken (am : AuthMiddleware)
    (userID username role : Bytes) (h now : Int) :
    generateJWT am userID username role h now =
      signedToken am jwtHeaderBytes
        (marshalClaims ⟨userID, username, role, now, now + 3600 * h⟩) := rfl

/-- `validateJWT` accepts every correctly-signed token whose payload
parses, whatever the header segment encodes; the verifying middleware
only needs the signing middleware's secret. -/
theorem validateJWT_signedToken (am av : AuthMiddleware)
    (hsec : av.secretKey = am.secretKey) (hb pb : Bytes)
    (c : Claims) (hpb : ByteOk pb) (hc : unmarshalClaims pb = some c) :
    validateJWT av (signedToken am hb pb) = Except.ok c := by
  have hsig : ∀ x ∈ createSignature am (b64encode hb ++ 46 :: b64encode pb),
      x ≠ 46 := by
    intro x hx
    simp only [createSignature] at hx
    exact b64encode_no_dot _ x hx
  have hsplit : splitB 46 (signedToken am hb pb) =
      [b64encode hb, b64encode pb,
        createSignature am (b64encode hb ++ 46 :: b64encode pb)] := by
    simp only [signedToken, List.cons_append, List.append_assoc]
    rw [splitB_sep_append 46 _ _ (b64encode_no_dot hb)]
    rw [splitB_sep_append 46 _ _ (b64encode_no_dot pb)]
    rw [splitB_no_sep 46 _ hsig]
  have hcs : createSignature av (b64encode hb ++ 46 :: b64encode pb) =
      createSignature am (b64encode hb ++ 46 :: b64encode pb) := by
    simp [createSignature, hsec]
  simp only [validateJWT, hsplit, hcs, if_true]
  rw [b64_roundtrip pb hpb]
  simp [hc]

/-- The claims `GenerateJWT` builds (auth.go:152-158). -/
def generateClaims (userID username role : Bytes) (expirationHours now : Int) : Claims :=
  ⟨userID, username, role, now, now + 3600 * expirationHours⟩

theorem generateJWT_claims (am : AuthMiddleware) (userID username role : Bytes)
    (h now : Int) :
    generateJWT am userID username role h now =
      signedToken am jwtHeaderBytes
        (marshalClaims (generateClaims userID username role h now)) := rfl

/-- `extractTokenFromHeader` returns everything after a literal
`"Bearer "` prefix verbatim. -/
theorem extractTokenFromHeader_bearer (t : Bytes) :
    extractTokenFromHeader (bearerLiteral ++ t) = t := by
  have hne : bearerLiteral ++ t ≠ [] := by
    simp [bearerLiteral, strBytes]
  have hgen : ∀ a b : Bytes, List.isPrefixOf a (a ++ b) = true := by
    intro a b
    induction a with
    | nil => simp [List.isPrefixOf]
    | cons x xs ih => simp [List.isPrefixOf, ih]
  have hpre : List.isPrefixOf bearerLiteral (bearerLiteral ++ t) = true := hgen _ _
  simp only [extractTokenFromHeader, hne, if_false, hpre, if_true]
  exact List.drop_left _ _

theorem signedToken_ne_nil (am : AuthMiddleware) (hb pb : Bytes) :
    signedToken am hb pb ≠ [] := by
  simp [signedToken]

/-- Digit-run parsing inverts decimal printing of naturals. -/
theorem atoiCore_natDec (m : Nat) : atoiCore (natDec m) = some m := by
  cases hd : natDec m with
  | nil => exact absurd hd (natDec_ne_nil _)
  | cons d tl =>
    have hds : ∀ b ∈ natDec m, isDigitB b := natDec_digits _
    have hp : parseDigits (natDec m ++ []) 0 = (digitsVal (natDec m) 0, []) :=
      parseDigits_spec (natDec m) [] 0 hds (by intro b hb; simp at hb)
    rw [List.append_nil, natDec_val] at hp
    rw [hd] at hp
    simp only [atoiCore, hp]

/-- `strconv.Atoi` inverts decimal printing of integers. -/
theorem atoi_intDec (n : Int) : atoi (intDec n) = some n := by
  by_cases hneg : n < 0
  · simp only [intDec, if_pos hneg, atoi, if_pos rfl, atoiCore_natDec]
    simp only [Option.map_some, Option.bind_some, Option.some_bind,
      Option.bind_eq_bind, Option.pure_def, Option.some.injEq, if_true,
      Option.map_some']
    omega
  · simp only [intDec, if_neg hneg]
    cases hd : natDec n.toNat with
    | nil => exact absurd hd (natDec_ne_nil _)
    | cons d tl =>
      have hd0 : isDigitB d := natDec_digits _ d (by rw [hd]; simp)
      have h45 : ¬(d = 45) := by rcases hd0 with ⟨h1, h2⟩; omega
      have h43 : ¬(d = 43) := by rcases hd0 with ⟨h1, h2⟩; omega
      have hcore := atoiCore_natDec n.toNat
      rw [hd] at hcore
      simp only [atoi, h45, h43, if_false, hcore]
      simp only [Option.map_some, Option.bind_some, Option.some_bind,
        Option.bind_eq_bind, Option.pure_def, Option.some.injEq,
        Option.map_some']
      omega

theorem marshalClaimsIssAud_byteOk (c : Claims) (iss aud : Bytes)
    (h : ClaimsOk c) (hiss : ByteOk iss) (haud : ByteOk aud) :
    ByteOk (marshalClaimsIssAud c iss aud) := by
  obtain ⟨h1, h2, h3⟩ := h
  simp only [marshalClaimsIssAud, byteOk_append, and_assoc]
  exact ⟨by decide, by decide, jstr_byteOk _ h1, by decide,
    by decide, jstr_byteOk _ h2, by decide,
    by decide, jstr_byteOk _ h3, by decide,
    by decide, intDec_byteOk _, by decide,
    by decide, intDec_byteOk _, by decide,
    by decide, jstr_byteOk _ hiss, by decide,
    by decide, jstr_byteOk _ haud, by decide⟩

/-! ## The claims -/

/-- C1.  The Tool Invocation Guard (`wrapWithAuth`, main.go:503-532)
invokes the wrapped handler iff the context is non-HTTP, or the
auth-enabled flag is false, or the context reports authenticated; in the
one remaining case it returns a tool-error result embedding the
context's auth_error string and the handler does not run. -/
theorem wrapWithAuth_guards_iff (config : MCPConfig) (handler : Ctx → ToolResult)
    (ctx : Ctx) :
    ((wrapWithAuth handler config ctx).2 = true ↔
      (isHTTPRequest ctx = false ∨ config.authEnabled = false ∨
        isAuthenticated ctx = true)) ∧
    (isHTTPRequest ctx = true → config.authEnabled = true →
      isAuthenticated ctx = false →
      wrapWithAuth handler config ctx =
        (newToolResultError
          (strBytes "Authentication required: " ++ getAuthError ctx), false)) := by
  cases hh : isHTTPRequest ctx <;> cases he : config.authEnabled <;>
    cases ha : isAuthenticated ctx <;>
    simp [wrapWithAuth, hh, he, ha]

/-- Witness for C1 at a concrete blocked invocation: HTTP POST context,
auth enabled, not authenticated. -/
theorem wrapWithAuth_guards_iff_witness :
    wrapWithAuth (fun _ => ⟨false, strBytes "sent"⟩)
      ⟨true, strBytes "k", 0, 180⟩
      { httpMethod := some (strBytes "POST"),
        authError := some (strBytes "missing or invalid authorization header"),
        authenticated := some false } =
      (newToolResultError (strBytes "Authentication required: " ++
        strBytes "missing or invalid authorization header"), false) :=
  (wrapWithAuth_guards_iff ⟨true, strBytes "k", 0, 180⟩
    (fun _ => ⟨false, strBytes "sent"⟩)
    { httpMethod := some (strBytes "POST"),
      authError := some (strBytes "missing or invalid authorization header"),
      authenticated := some false }).2 (by decide) rfl (by decide)

/-- C2.  Round-trip: a token issued by `GenerateJWT` with some secret is
accepted by `validateJWT` with the same secret, and the returned claims
are exactly the issued ones (`issued_at = now`,
`expires_at = now + 3600·hours`). -/
theorem validate_generate_roundtrip (secret userID username role : Bytes)
    (h now : Int) (hh : 0 < h)
    (hu : ByteOk userID) (hn : ByteOk username) (hr : ByteOk role) :
    validateJWT (newAuthMiddleware secret true)
      (generateJWT (newAuthMiddleware secret true) userID username role h now) =
      Except.ok ⟨userID, username, role, now, now + 3600 * h⟩ := by
  rw [generateJWT_claims]
  exact validateJWT_signedToken _ _ rfl _ _ _
    (marshalClaims_byteOk _ ⟨hu, hn, hr⟩)
    (unmarshal_marshal _)

/-- Witness for C2: the scenario of the spec — subject `user123`, role
`admin`, one hour of validity. -/
theorem validate_generate_roundtrip_witness :
    validateJWT (newAuthMiddleware (strBytes "test-secret") true)
      (generateJWT (newAuthMiddleware (strBytes "test-secret") true)
        (strBytes "user123") (strBytes "testuser") (strBytes "admin") 1 1700000000) =
      Except.ok ⟨strBytes "user123", strBytes "testuser", strBytes "admin",
        1700000000, 1700003600⟩ :=
  validate_generate_roundtrip (strBytes "test-secret") (strBytes "user123")
    (strBytes "testuser") (strBytes "admin") 1 1700000000
    (by decide) (by decide) (by decide) (by decide)

/-- C7.  With the middleware constructed disabled, every request context
reports authenticated with no auth_error, whatever the Authorization
header holds: contexts for two requests differing only in the header are
identical. -/
theorem disabled_auth_bypass (secret : Bytes) (r : Request) (now : Int) :
    httpContextFunc (newAuthMiddleware secret false) r now =
      { httpMethod := some r.method, authenticated := some true } ∧
    (∀ h2 : Bytes,
      httpContextFunc (newAuthMiddleware secret false) ⟨r.method, h2⟩ now =
        httpContextFunc (newAuthMiddleware secret false) r now) := by
  constructor
  · simp [httpContextFunc, newAuthMiddleware]
  · intro h2
    simp [httpContextFunc, newAuthMiddleware]

/-- C10.  `send_notification` with an explicit priority string `"0"`
creates the message with the configured default priority: the
`CreateMessage` line treats 0 as "unset" and substitutes
`config.Priority`, so an explicit normal priority cannot be selected
unless the configured default is itself 0. -/
theorem priority_zero_replaced (config : MCPConfig) :
    sendNotificationPriority config (strBytes "0") =
      Except.ok config.pushoverDefaultPriority ∧
    (∀ cfgPriority : Int, createMessagePriority cfgPriority 0 = cfgPriority) ∧
    (∀ cfgPriority p : Int, p ≠ 0 → createMessagePriority cfgPriority p = p) := by
  refine ⟨?_, fun cfgPriority => by simp [createMessagePriority],
    fun cfgPriority p hp => by simp [createMessagePriority, hp]⟩
  have hatoi : atoi (strBytes "0") = some 0 := rfl
  have hne : ¬(strBytes "0" = []) := by decide
  simp only [sendNotificationPriority, parsePriorityArg, hne, if_false, hatoi]
  norm_num
  simp [Except.map, createMessagePriority]

/-- C3.  For any correctly-signed token with well-formed claims whose
expiry lies in the past, `validateJWT` still succeeds with those claims
(the codec never checks expiry), and the middleware's context-building
step is what rejects: authenticated=false with auth_error exactly
"token expired". -/
theorem codec_passes_expired_middleware_rejects (secret hb pb method : Bytes)
    (c : Claims) (t : Int) (hpb : ByteOk pb)
    (hc : unmarshalClaims pb = some c) (hexp : t > c.expiresAt) :
    validateJWT (newAuthMiddleware secret true)
      (signedToken (newAuthMiddleware secret true) hb pb) = Except.ok c ∧
    httpContextFunc (newAuthMiddleware secret true)
      ⟨method, bearerLiteral ++ signedToken (newAuthMiddleware secret true) hb pb⟩ t =
      { httpMethod := some method,
        authError := some (strBytes "token expired"),
        authenticated := some false } := by
  have hval := validateJWT_signedToken (newAuthMiddleware secret true) _ rfl hb pb c hpb hc
  refine ⟨hval, ?_⟩
  have hne : ¬(signedToken (newAuthMiddleware secret true) hb pb = []) :=
    signedToken_ne_nil _ hb pb
  simp only [newAuthMiddleware] at hval hne ⊢
  simp only [httpContextFunc, Bool.not_true, Bool.false_eq_true, if_false,
    extractTokenFromHeader_bearer, hne, hval, hexp, if_true]

/-- Witness for C3: a token whose claims already expired at issuance
(`exp = 1000`), checked at `t = 2000`. -/
theorem codec_passes_expired_middleware_rejects_witness :
    validateJWT (newAuthMiddleware (strBytes "sk") true)
      (signedToken (newAuthMiddleware (strBytes "sk") true) jwtHeaderBytes
        (marshalClaims ⟨strBytes "u", strBytes "n", strBytes "user", 900, 1000⟩)) =
      Except.ok ⟨strBytes "u", strBytes "n", strBytes "user", 900, 1000⟩ ∧
    httpContextFunc (newAuthMiddleware (strBytes "sk") true)
      ⟨strBytes "POST", bearerLiteral ++ signedToken (newAuthMiddleware (strBytes "sk") true)
        jwtHeaderBytes
        (marshalClaims ⟨strBytes "u", strBytes "n", strBytes "user", 900, 1000⟩)⟩ 2000 =
      { httpMethod := some (strBytes "POST"),
        authError := some (strBytes "token expired"),
        authenticated := some false } :=
  codec_passes_expired_middleware_rejects (strBytes "sk") jwtHeaderBytes _
    (strBytes "POST") ⟨strBytes "u", strBytes "n", strBytes "user", 900, 1000⟩ 2000
    (marshalClaims_byteOk _ (by decide)) (unmarshal_marshal _) (by decide)

/-- The JWT header declaring the unsigned "none" algorithm. -/
def algNoneHeader : Bytes := strBytes "\x7b\"alg\":\"none\",\"typ\":\"JWT\"\x7d"

/-- Counterexample to C4: a token whose header declares `"alg":"none"`
but whose HMAC-SHA256 signature is valid is ACCEPTED by `validateJWT` —
there is no algorithm check, hence no `AlgorithmError`. -/
theorem validateJWT_accepts_alg_none :
    validateJWT (newAuthMiddleware (strBytes "secret-key") true)
      (signedToken (newAuthMiddleware (strBytes "secret-key") true) algNoneHeader
        (marshalClaims ⟨strBytes "user1", strBytes "admin", strBytes "admin", 0, 3600⟩)) =
      Except.ok ⟨strBytes "user1", strBytes "admin", strBytes "admin", 0, 3600⟩ :=
  validateJWT_signedToken _ _ rfl _ _ _
    (marshalClaims_byteOk _ (by decide)) (unmarshal_marshal _)

/-- C4 (amended).  `validateJWT` never inspects the declared algorithm:
a correctly-signed token with a parseable payload is accepted whatever
byte string the header segment encodes, and the verification outcome is
identical under any two headers. -/
theorem validateJWT_ignores_declared_algorithm (secret hb hb2 pb : Bytes)
    (enabled : Bool) (c : Claims)
    (hpb : ByteOk pb) (hc : unmarshalClaims pb = some c) :
    validateJWT (newAuthMiddleware secret enabled)
      (signedToken (newAuthMiddleware secret enabled) hb pb) = Except.ok c ∧
    validateJWT (newAuthMiddleware secret enabled)
      (signedToken (newAuthMiddleware secret enabled) hb pb) =
      validateJWT (newAuthMiddleware secret enabled)
        (signedToken (newAuthMiddleware secret enabled) hb2 pb) := by
  have h1 := validateJWT_signedToken (newAuthMiddleware secret enabled) _ rfl hb pb c hpb hc
  have h2 := validateJWT_signedToken (newAuthMiddleware secret enabled) _ rfl hb2 pb c hpb hc
  exact ⟨h1, by rw [h1, h2]⟩

/-- Witness for amended C4: `"alg":"none"` versus the genuine HS256
header, same payload, same (accepting) outcome. -/
theorem validateJWT_ignores_declared_algorithm_witness :
    validateJWT (newAuthMiddleware (strBytes "k2") true)
      (signedToken (newAuthMiddleware (strBytes "k2") true) algNoneHeader
        (marshalClaims ⟨strBytes "a", strBytes "b", strBytes "c", 5, 7⟩)) =
      Except.ok ⟨strBytes "a", strBytes "b", strBytes "c", 5, 7⟩ ∧
    validateJWT (newAuthMiddleware (strBytes "k2") true)
      (signedToken (newAuthMiddleware (strBytes "k2") true) algNoneHeader
        (marshalClaims ⟨strBytes "a", strBytes "b", strBytes "c", 5, 7⟩)) =
      validateJWT (newAuthMiddleware (strBytes "k2") true)
        (signedToken (newAuthMiddleware (strBytes "k2") true) jwtHeaderBytes
          (marshalClaims ⟨strBytes "a", strBytes "b", strBytes "c", 5, 7⟩)) :=
  validateJWT_ignores_declared_algorithm (strBytes "k2") algNoneHeader jwtHeaderBytes
    _ true ⟨strBytes "a", strBytes "b", strBytes "c", 5, 7⟩
    (marshalClaims_byteOk _ (by decide)) (unmarshal_marshal _)

/-- Counterexample to C5: a lowercase `bearer` scheme yields no token
(the claim says the scheme match is case-insensitive), and extra spaces
are not collapsed — `"Bearer   abc"` yields `"  abc"`, not `"abc"`. -/
theorem extractTokenFromHeader_counterexample :
    extractTokenFromHeader (strBytes "bearer abc") = [] ∧
    ([] : Bytes) ≠ strBytes "abc" ∧
    extractTokenFromHeader (strBytes "Bearer   abc") = strBytes "  abc" ∧
    strBytes "  abc" ≠ strBytes "abc" := by decide

/-- C5 (amended).  Extraction demands the case-sensitive literal prefix
`"Bearer "` (one space) and returns everything after those 7 bytes
verbatim: lowercase schemes, other schemes, and a bare `Bearer` yield
the empty string, while extra spaces or extra segments are passed
through inside the returned token. -/
theorem extractTokenFromHeader_exact_literal :
    (∀ t : Bytes, extractTokenFromHeader (strBytes "Bearer " ++ t) = t) ∧
    extractTokenFromHeader [] = [] ∧
    extractTokenFromHeader (strBytes "bearer abc") = [] ∧
    extractTokenFromHeader (strBytes "Bearer") = [] ∧
    extractTokenFromHeader (strBytes "Basic abc") = [] ∧
    extractTokenFromHeader (strBytes "Bearer   abc") = strBytes "  abc" ∧
    extractTokenFromHeader (strBytes "Bearer a b") = strBytes "a b" := by
  refine ⟨?_, by decide, by decide, by decide, by decide, by decide, by decide⟩
  intro t
  exact extractTokenFromHeader_bearer t

/-- Counterexample to C6: a correctly-signed token whose payload
declares issuer `"evil-issuer"` and audience `"evil-audience"` — both
different from any constant of this system — is ACCEPTED: no
`ClaimError` exists, the members are silently ignored. -/
theorem validateJWT_accepts_wrong_issuer_audience :
    validateJWT (newAuthMiddleware (strBytes "secret-key") true)
      (signedToken (newAuthMiddleware (strBytes "secret-key") true) jwtHeaderBytes
        (marshalClaimsIssAud ⟨strBytes "u", strBytes "n", strBytes "user", 0, 3600⟩
          (strBytes "evil-issuer") (strBytes "evil-audience"))) =
      Except.ok ⟨strBytes "u", strBytes "n", strBytes "user", 0, 3600⟩ :=
  validateJWT_signedToken _ _ rfl _ _ _
    (marshalClaimsIssAud_byteOk _ _ _ (by decide) (by decide) (by decide))
    (unmarshal_issAud _ _ _)

/-- C6 (amended).  `validateJWT` performs no issuer/audience validation:
the `Claims` struct has no such fields, and a correctly-signed payload
carrying arbitrary `iss`/`aud` members verifies to the same five claims
whatever those members say. -/
theorem validateJWT_ignores_issuer_audience (secret : Bytes) (enabled : Bool)
    (c : Claims) (iss aud : Bytes)
    (hok : ClaimsOk c) (hiss : ByteOk iss) (haud : ByteOk aud) :
    validateJWT (newAuthMiddleware secret enabled)
      (signedToken (newAuthMiddleware secret enabled) jwtHeaderBytes
        (marshalClaimsIssAud c iss aud)) = Except.ok c :=
  validateJWT_signedToken _ _ rfl _ _ _
    (marshalClaimsIssAud_byteOk _ _ _ hok hiss haud)
    (unmarshal_issAud _ _ _)

/-- Witness for amended C6. -/
theorem validateJWT_ignores_issuer_audience_witness :
    validateJWT (newAuthMiddleware (strBytes "k3") false)
      (signedToken (newAuthMiddleware (strBytes "k3") false) jwtHeaderBytes
        (marshalClaimsIssAud ⟨strBytes "x", strBytes "y", strBytes "z", 1, 2⟩
          (strBytes "other-system") (strBytes "other-user"))) =
      Except.ok ⟨strBytes "x", strBytes "y", strBytes "z", 1, 2⟩ :=
  validateJWT_ignores_issuer_audience (strBytes "k3") false
    ⟨strBytes "x", strBytes "y", strBytes "z", 1, 2⟩
    (strBytes "other-system") (strBytes "other-user")
    (by decide) (by decide) (by decide)

/-- Counterexample to C8: with `expiration_hours = 0` (an integer the
claim quantifies over), issuance builds claims with
`expires_at = issued_at`, so `expires_at > issued_at` fails. -/
theorem generateClaims_zero_hours_counterexample :
    (generateClaims (strBytes "user1") (strBytes "admin") (strBytes "admin")
      0 1700000000).issuedAt = 1700000000 ∧
    (generateClaims (strBytes "user1") (strBytes "admin") (strBytes "admin")
      0 1700000000).expiresAt = 1700000000 ∧
    ¬((generateClaims (strBytes "user1") (strBytes "admin") (strBytes "admin")
      0 1700000000).expiresAt >
      (generateClaims (strBytes "user1") (strBytes "admin") (strBytes "admin")
        0 1700000000).issuedAt) := by decide

/-! Go's duration arithmetic at issuance, including the int64 wrap.

`GenerateJWT` (auth.go:157) computes
`now.Add(time.Duration(expirationHours) * time.Hour).Unix()`.  The
`Duration` multiplication is an int64 multiplication and wraps: the
first positive overflow is at `expirationHours = 2562048`, where the
product exceeds 2^63 - 1 and the expiry lands about 292 years in the
past.  `generateClaims` models the arithmetic over unbounded integers
(exact below that threshold); the definitions here model the wrap
itself, so that statements about the overflow regime are about what the
program does. -/

/-- Two's-complement int64 wrap-around of an integer. -/
def wrap64 (x : Int) : Int :=
  (x + 9223372036854775808) % 18446744073709551616 - 9223372036854775808

/-- The int64 nanosecond value of `time.Duration(h) * time.Hour`
(`time.Hour` = 3.6e12 ns), with Go's wrapping multiplication. -/
def goHourDuration (h : Int) : Int := wrap64 (h * 3600000000000)

/-- `now.Add(d).Unix()` for an issuing instant on a whole second:
`Time.Add` adds `d / 1e9` seconds, then borrows one when the remaining
nanoseconds go negative, which together is floor division of the
duration by 1e9.  (A nonzero nanosecond component of `time.Now()` can
shift the result by at most one second when the wrapped duration is not
a whole number of seconds; no stated property is that fine-grained.) -/
def goExpiresAt (h now : Int) : Int :=
  now + Int.fdiv (goHourDuration h) 1000000000

theorem wrap64_eq_self (x : Int) (h1 : -9223372036854775808 ≤ x)
    (h2 : x < 9223372036854775808) : wrap64 x = x := by
  have h3 : 0 ≤ x + 9223372036854775808 := by omega
  have h4 : x + 9223372036854775808 < 18446744073709551616 := by omega
  simp only [wrap64, Int.emod_eq_of_lt h3 h4]
  ring

/-- Below the overflow threshold the duration arithmetic is exact:
`now.Add(Duration(h)*Hour).Unix() = now + 3600*h`. -/
theorem goExpiresAt_no_overflow (h now : Int) (h1 : -2562048 < h)
    (h2 : h < 2562048) : goExpiresAt h now = now + 3600 * h := by
  have hw : goHourDuration h = h * 3600000000000 := by
    apply wrap64_eq_self <;> omega
  have hsplit : h * 3600000000000 = h * 3600 * 1000000000 := by ring
  simp only [goExpiresAt, hw, hsplit,
    Int.mul_fdiv_cancel _ (by norm_num : (1000000000 : Int) ≠ 0)]
  ring

/-- C8 (amended).  For every `expiration_hours` with
`1 ≤ h ≤ 2562047` — positive and below the int64 overflow threshold of
`time.Duration(h) * time.Hour` — the issued claims satisfy
`expires_at > issued_at`, and on that range the unbounded model agrees
with Go's wrapping arithmetic; the bound is tight: at `h = 2562048` the
multiplication wraps and the issued expiry precedes the issue instant. -/
theorem generateClaims_expiry_after_issue (userID username role : Bytes)
    (h now : Int) (hh : 1 ≤ h) (hlt : h ≤ 2562047) :
    goExpiresAt h now = (generateClaims userID username role h now).expiresAt ∧
    (generateClaims userID username role h now).expiresAt >
      (generateClaims userID username role h now).issuedAt ∧
    goExpiresAt 2562048 now < now := by
  have hwrapped : goHourDuration 2562048 = -9223371273709551616 := by decide
  have hdiv : Int.fdiv (-9223371273709551616) 1000000000 = -9223371274 := by decide
  refine ⟨?_, ?_, ?_⟩
  · rw [goExpiresAt_no_overflow h now (by omega) (by omega)]
    simp [generateClaims]
  · simp only [generateClaims]
    omega
  · simp only [goExpiresAt, hwrapped, hdiv]
    omega

/-- Witness for amended C8 at the CLI default of 744 hours. -/
theorem generateClaims_expiry_after_issue_witness :
    goExpiresAt 744 1700000000 =
      (generateClaims (strBytes "user1") (strBytes "admin") (strBytes "admin")
        744 1700000000).expiresAt ∧
    (generateClaims (strBytes "user1") (strBytes "admin") (strBytes "admin")
      744 1700000000).expiresAt >
      (generateClaims (strBytes "user1") (strBytes "admin") (strBytes "admin")
        744 1700000000).issuedAt ∧
    goExpiresAt 2562048 1700000000 < 1700000000 :=
  generateClaims_expiry_after_issue (strBytes "user1") (strBytes "admin")
    (strBytes "admin") 744 1700000000 (by decide) (by decide)

/-- C9.  When auth is enabled the HTTP server registers POST
/generate-token; its handler never consults the Authorization header
(identical responses under any two header values), and for every decoded
body it returns status 200 with a token signed by the server's
configured secret — a token the middleware's own `validateJWT`
accepts. -/
theorem generate_token_endpoint_unauthenticated (config : MCPConfig)
    (req : GenTokenRequest) (hdr1 hdr2 : Bytes) (now : Int)
    (hu : ByteOk req.userID) (hn : ByteOk req.username) (hr : ByteOk req.role) :
    generateTokenRouteRegistered config = config.authEnabled ∧
    handleGenerateToken config (strBytes "POST") hdr1 (some req) now =
      handleGenerateToken config (strBytes "POST") hdr2 (some req) now ∧
    handleGenerateToken config (strBytes "POST") hdr1 (some req) now =
      { status := 200,
        token := some (generateJWT (newAuthMiddleware config.authSecretKey true)
          (genTokenDefaults req).userID (genTokenDefaults req).username
          (genTokenDefaults req).role (genTokenDefaults req).expiresIn now) } ∧
    validateJWT (newAuthMiddleware config.authSecretKey config.authEnabled)
      (generateJWT (newAuthMiddleware config.authSecretKey true)
        (genTokenDefaults req).userID (genTokenDefaults req).username
        (genTokenDefaults req).role (genTokenDefaults req).expiresIn now) =
      Except.ok (generateClaims (genTokenDefaults req).userID
        (genTokenDefaults req).username (genTokenDefaults req).role
        (genTokenDefaults req).expiresIn now) := by
  have hok : ClaimsOk (generateClaims (genTokenDefaults req).userID
      (genTokenDefaults req).username (genTokenDefaults req).role
      (genTokenDefaults req).expiresIn now) := by
    refine ⟨?_, ?_, ?_⟩ <;>
      simp only [genTokenDefaults, generateClaims] <;>
      split <;>
      first
        | decide
        | assumption
  refine ⟨rfl, rfl, ?_, ?_⟩
  · simp [handleGenerateToken]
  · rw [generateJWT_claims]
    exact validateJWT_signedToken _ _ rfl _ _ _
      (marshalClaims_byteOk _ hok) (unmarshal_marshal _)

/-- Witness for C9: empty body fields, so all server-side defaults
(default_user / pushover_user / user / 24 h) apply. -/
theorem generate_token_endpoint_unauthenticated_witness :
    generateTokenRouteRegistered ⟨true, strBytes "sk9", 0, 180⟩ = true ∧
    handleGenerateToken ⟨true, strBytes "sk9", 0, 180⟩ (strBytes "POST")
      (strBytes "Bearer junk") (some ⟨[], [], [], 0⟩) 1700000000 =
      handleGenerateToken ⟨true, strBytes "sk9", 0, 180⟩ (strBytes "POST")
        [] (some ⟨[], [], [], 0⟩) 1700000000 ∧
    handleGenerateToken ⟨true, strBytes "sk9", 0, 180⟩ (strBytes "POST")
      (strBytes "Bearer junk") (some ⟨[], [], [], 0⟩) 1700000000 =
      { status := 200,
        token := some (generateJWT (newAuthMiddleware (strBytes "sk9") true)
          (genTokenDefaults ⟨[], [], [], 0⟩).userID
          (genTokenDefaults ⟨[], [], [], 0⟩).username
          (genTokenDefaults ⟨[], [], [], 0⟩).role
          (genTokenDefaults ⟨[], [], [], 0⟩).expiresIn 1700000000) } ∧
    validateJWT (newAuthMiddleware (strBytes "sk9") true)
      (generateJWT (newAuthMiddleware (strBytes "sk9") true)
        (genTokenDefaults ⟨[], [], [], 0⟩).userID
        (genTokenDefaults ⟨[], [], [], 0⟩).username
        (genTokenDefaults ⟨[], [], [], 0⟩).role
        (genTokenDefaults ⟨[], [], [], 0⟩).expiresIn 1700000000) =
      Except.ok (generateClaims (genTokenDefaults ⟨[], [], [], 0⟩).userID
        (genTokenDefaults ⟨[], [], [], 0⟩).username
        (genTokenDefaults ⟨[], [], [], 0⟩).role
        (genTokenDefaults ⟨[], [], [], 0⟩).expiresIn 1700000000) :=
  generate_token_endpoint_unauthenticated ⟨true, strBytes "sk9", 0, 180⟩
    ⟨[], [], [], 0⟩ (strBytes "Bearer junk") [] 1700000000
    (by decide) (by decide) (by decide)

/-- Witness for C10: with a configured default of -1 (the program's
`PriorityLow` default), an explicit `"0"` argument yields -1, while an
explicit nonzero priority (2) survives. -/
theorem priority_zero_replaced_witness :
    sendNotificationPriority ⟨false, [], -1, 180⟩ (strBytes "0") =
      Except.ok (-1) ∧
    createMessagePriority (-1) 2 = 2 :=
  ⟨(priority_zero_replaced ⟨false, [], -1, 180⟩).1,
    (priority_zero_replaced ⟨false, [], -1, 180⟩).2.2 (-1) 2 (by decide)⟩
